import Mathlib

/-!
Verification of the client-side list-view pipeline of the `advanced-data-table`
Svelte component (filter → sort → paginate → select), shallowly embedded in Lean.

The repository has three near-identical variants of the component:
* `src/src/Component.svelte` (fixture-data variant),
* `src/unnamed/part_000` (live-fetch variant),
* `src/unnamed/part_001` (data-provider variant).
The definitions below are translated from those sources; where a variant
differs in a way a claim depends on, both versions are embedded and the
variant is recorded in the definition's name (`...0` for part_000, `...1`
for part_001).
-/

namespace DataTable

/-- A JavaScript runtime value as it occurs in the component's rows: strings,
(integer) numbers, booleans, `null`, `undefined`, and string arrays (the
`options` column type).  Field access on a missing key yields `undefined`. -/
inductive JsValue where
  | str (s : String)
  | num (n : Int)
  | bool (b : Bool)
  | null
  | undefined
  | arr (l : List String)
deriving DecidableEq, Repr

/-- JavaScript truthiness: `""`, `0`, `false`, `null`, `undefined` are falsy;
every other value (including any array object) is truthy. -/
def jsTruthy : JsValue → Bool
  | .str s => decide (s ≠ "")
  | .num n => decide (n ≠ 0)
  | .bool b => b
  | .null => false
  | .undefined => false
  | .arr _ => true

/-- JavaScript `a || b`: `a` when truthy, else `b`. -/
def jsOrV (a b : JsValue) : JsValue := if jsTruthy a then a else b

/-- JavaScript `String(v)` for the values of the model (`String([..])` joins
the elements with `","`). -/
def jsToString : JsValue → String
  | .str s => s
  | .num n => toString n
  | .bool b => if b then "true" else "false"
  | .null => "null"
  | .undefined => "undefined"
  | .arr l => String.intercalate "," l

/-- A row: an open mapping from column name to value, in field order. -/
abbrev Row := List (String × JsValue)

/-- JavaScript property access `row[key]`: the first binding of `key`, or
`undefined` when the field is absent. -/
def rowGet (r : Row) (k : String) : JsValue :=
  match r.find? (fun p => p.1 == k) with
  | some p => p.2
  | none => .undefined

/-- ASCII lowercasing, modelling `String.prototype.toLowerCase` on the
character range the component's data uses. -/
def asciiLower (s : String) : String := String.mk (s.data.map Char.toLower)

/-- `pat` occurs as a contiguous sublist of `l`
(JavaScript `haystack.includes(needle)` on the character lists). -/
def listIncludes (l pat : List Char) : Bool :=
  pat.isPrefixOf l ||
    match l with
    | [] => false
    | _ :: t => listIncludes t pat

/-- JavaScript `haystack.includes(needle)`. -/
def strIncludes (hay pat : String) : Bool := listIncludes hay.data pat.data

/-! ### Filter stage

`$: filteredData = allRows.filter(item => { if (!searchTerm) return true;
return availableColumns.some(col =>
  String(item[col] || "").toLowerCase().includes(searchTerm.toLowerCase())); })`
(identical in all three variants). -/

/-- The filter stage. -/
def filteredData (rows : List Row) (searchTerm : String) (columns : List String) :
    List Row :=
  rows.filter fun item =>
    (searchTerm == "") ||
      columns.any fun col =>
        strIncludes (asciiLower (jsToString (jsOrV (rowGet item col) (.str ""))))
          (asciiLower searchTerm)

/-! ### Sort stage -/

/-- Sort direction (`sortConfig.direction`, `"asc"` / `"desc"`). -/
inductive SortDir where
  | asc
  | desc
deriving DecidableEq, Repr

/-- `sortConfig = { key, direction }`; `key` is `null` initially. -/
structure SortConfig where
  key : Option String
  direction : SortDir
deriving DecidableEq, Repr

/-- Strict lexicographic comparison by character code, modelling how the
JavaScript `<` operator compares two strings (code-unit by code-unit, with a
proper prefix ordered first). -/
def lexLt : List Char → List Char → Bool
  | _, [] => false
  | [], _ :: _ => true
  | a :: as, b :: bs =>
    if a.toNat < b.toNat then true
    else if b.toNat < a.toNat then false
    else lexLt as bs

/-- JavaScript `ToNumber` on the model's values, `none` standing for `NaN`
(integer-literal strings only; the repository's data never compares
non-numeric strings numerically). -/
def toNumOpt : JsValue → Option Int
  | .str s => if s = "" then some 0 else s.toInt?
  | .num n => some n
  | .bool b => some (if b then 1 else 0)
  | .null => some 0
  | .undefined => none
  | .arr _ => none

/-- Numeric comparison of two `ToNumber` results; `false` when either is
`NaN`. -/
def numLtB (x y : Option Int) : Bool :=
  match x, y with
  | some m, some n => decide (m < n)
  | _, _ => false

/-- The JavaScript `<` operator (abstract relational comparison) on the
model's values: two strings compare lexicographically, anything else goes
through `ToNumber`, and any comparison involving `NaN` is `false`.
`a > b` evaluates as `jsLt b a` for these value kinds. -/
def jsLt (a b : JsValue) : Bool :=
  match a, b with
  | .str x, .str y => lexLt x.data y.data
  | _, _ => numLtB (toNumOpt a) (toNumOpt b)

/-- The character list of a string value (`[]` on non-strings). -/
def strKeyData : JsValue → List Char
  | .str s => s.data
  | _ => []

/-- The `ToNumber` coercion with `NaN` defaulted (only used where `NaN` is
excluded). -/
def numOfD (v : JsValue) : Int := (toNumOpt v).getD 0

/-- The source comparator
`(a, b) => { const aValue = a[sortConfig.key]; const bValue = b[sortConfig.key];
if (aValue < bValue) return sortConfig.direction === "asc" ? -1 : 1;
if (aValue > bValue) return sortConfig.direction === "asc" ? 1 : -1;
return 0; }`. -/
def sortCmp (key : String) (dir : SortDir) (a b : Row) : Int :=
  if jsLt (rowGet a key) (rowGet b key) then
    match dir with | .asc => -1 | .desc => 1
  else if jsLt (rowGet b key) (rowGet a key) then
    match dir with | .asc => 1 | .desc => -1
  else 0

/-- Insert `x` into `l`, placing it before the first element `h` for which
`before h x` fails; elements the comparator ties with `x` stay before `x`. -/
def insertStable (before : α → α → Bool) (x : α) : List α → List α
  | [] => [x]
  | h :: t => if before h x then h :: insertStable before x t else x :: h :: t

/-- Stable sort: `before a b` means the comparator orders `a` strictly before
`b`; ties keep their input order.  Models the (ES2019+) stable
`Array.prototype.sort` applied to the source's three-way comparator. -/
def stableSort (before : α → α → Bool) : List α → List α
  | [] => []
  | h :: t => insertStable before h (stableSort before t)

/-- The sort stage: `sortedData = sortConfig.key ? [...filteredData].sort(cmp)
: filteredData` (an unset — or empty, hence falsy — key is a no-op). -/
def sortedData (cfg : SortConfig) (l : List Row) : List Row :=
  match cfg.key with
  | none => l
  | some k =>
    if k = "" then l
    else stableSort (fun a b => decide (sortCmp k cfg.direction a b < 0)) l

/-- `a` and `b` tie under the sort comparator for `key`: neither `a[key] <
b[key]` nor `b[key] < a[key]` — "their key values compare equal". -/
def tieB (key : String) (a b : Row) : Bool :=
  !jsLt (rowGet a key) (rowGet b key) && !jsLt (rowGet b key) (rowGet a key)

/-! ### Page stage -/

/-- `totalPages = Math.ceil(sortedData.length / itemsPerPage)`. -/
def pageCount (len itemsPerPage : Nat) : Nat := (len + itemsPerPage - 1) / itemsPerPage

/-- `startIndex = (currentPage - 1) * itemsPerPage;
paginatedData = sortedData.slice(startIndex, startIndex + itemsPerPage)`. -/
def paginatedData (l : List α) (currentPage itemsPerPage : Nat) : List α :=
  (l.drop ((currentPage - 1) * itemsPerPage)).take itemsPerPage

/-- The five-button page window:
`Array.from({length: Math.min(5, totalPages)}, (_, i) => {
  if (totalPages <= 5) return i + 1;
  if (currentPage <= 3) return i + 1;
  if (currentPage >= totalPages - 2) return totalPages - 4 + i;
  return currentPage - 2 + i; })`. -/
def pageWindow (totalPages currentPage : Nat) : List Nat :=
  (List.range (min 5 totalPages)).map fun i =>
    if totalPages ≤ 5 then i + 1
    else if currentPage ≤ 3 then i + 1
    else if totalPages - 2 ≤ currentPage then totalPages - 4 + i
    else currentPage - 2 + i

/-- The consecutive run `[a, a+1, ..., a+len-1]`. -/
def windowFrom (a len : Nat) : List Nat := (List.range len).map fun i => i + a

/-! ### Row identity -/

/-- `JSON.stringify` on one of the model's values (rows hold plain strings
without characters that JSON would escape, so escaping is not modelled). -/
def jsonVal : JsValue → String
  | .str s => "\"" ++ s ++ "\""
  | .num n => toString n
  | .bool b => if b then "true" else "false"
  | .null => "null"
  | .undefined => ""
  | .arr l => "[" ++ String.intercalate "," (l.map fun s => "\"" ++ s ++ "\"") ++ "]"

/-- `JSON.stringify(row)`: fields in insertion order; `undefined`-valued
fields are omitted, as `JSON.stringify` does. -/
def jsonStringify (r : Row) : String :=
  "\x7b" ++
    String.intercalate ","
      ((r.filter fun p => !(p.2 == JsValue.undefined)).map fun p =>
        "\"" ++ p.1 ++ "\":" ++ jsonVal p.2) ++
    "\x7d"

/-- `Component.svelte`'s identity chain:
`getRowId(row) = row._id || row.id || row.customerid || row._rev ||
JSON.stringify(row)`. -/
def getRowId (r : Row) : JsValue :=
  jsOrV (rowGet r "_id")
    (jsOrV (rowGet r "id")
      (jsOrV (rowGet r "customerid")
        (jsOrV (rowGet r "_rev") (.str (jsonStringify r)))))

/-- `part_000`'s `getRowId`: `row._id || row.id || row._rev ||
JSON.stringify(row)` (no `customerid` step). -/
def getRowId0 (r : Row) : JsValue :=
  jsOrV (rowGet r "_id")
    (jsOrV (rowGet r "id")
      (jsOrV (rowGet r "_rev") (.str (jsonStringify r))))

/-- The identity `part_000`'s `handleSelectAll` stores:
`item._id || item.id || item._rev` (no serialization fallback). -/
def selectAllId0 (r : Row) : JsValue :=
  jsOrV (rowGet r "_id") (jsOrV (rowGet r "id") (rowGet r "_rev"))

/-- The identity `part_001`'s `handleSelectAll` stores: `item._id || item.id`. -/
def selectAllId1 (r : Row) : JsValue :=
  jsOrV (rowGet r "_id") (rowGet r "id")

/-! ### Selection tracker -/

/-- The identities of the current page's rows as a JS `Set`
(`new Set(paginatedData.map(item => getRowId(item)))`). -/
def pageIds (page : List Row) : Finset JsValue := (page.map getRowId).toFinset

/-- `Component.svelte`'s `handleSelectAll`:
`if (!selectable) return;
if (selectedRows.size === paginatedData.length && paginatedData.length > 0) {
  selectedRows = new Set();
} else {
  selectedRows = new Set(paginatedData.map(item => getRowId(item))); }`. -/
def handleSelectAll (selectable : Bool) (selectedRows : Finset JsValue)
    (page : List Row) : Finset JsValue :=
  if !selectable then selectedRows
  else if selectedRows.card = page.length ∧ 0 < page.length then ∅
  else pageIds page

/-- `handleRowSelect(rowId)`: toggle one identity's membership
(no-op when `selectable` is off). -/
def handleRowSelect (selectable : Bool) (selectedRows : Finset JsValue)
    (rowId : JsValue) : Finset JsValue :=
  if !selectable then selectedRows
  else if rowId ∈ selectedRows then selectedRows.erase rowId
  else insert rowId selectedRows

/-! ### Component state, pagination navigation, data reload -/

/-- The component's internal state touched by sorting, paging, selection and
data reload. -/
structure TableState where
  currentPage : Nat
  selectedRows : Finset JsValue
  allRows : List Row
  loading : Bool
  error : Option String

/-- A page-navigation click (`on:click={() => currentPage = pageNum}` and the
Previous/Next buttons): only `currentPage` is assigned. -/
def setPage (st : TableState) (pageNum : Nat) : TableState :=
  { st with currentPage := pageNum }

/-- The outcome of the awaited fetch in `part_000`'s `fetchData`: a response
of one of the four accepted shapes, or a thrown error. -/
inductive FetchResult where
  | rowsResp (rows : List Row)
  | dataResp (rows : List Row)
  | arrayResp (rows : List Row)
  | otherResp
  | failure (msg : String)

/-- `part_000`'s response-shape handling: `response?.rows`, else
`response?.data`, else a bare array, else `allRows = []`. -/
def extractRows : FetchResult → List Row
  | .rowsResp rows => rows
  | .dataResp rows => rows
  | .arrayResp rows => rows
  | .otherResp => []
  | .failure _ => []

/-- `part_000`'s `fetchData`, as a state transformer over the fetch outcome.
On any non-throwing response: `allRows` is replaced, then `currentPage = 1`
and `selectedRows = new Set()`.  On a thrown error (the `catch` block):
`error = err.message; allRows = []` — `currentPage` and `selectedRows` are
not touched.  `finally { loading = false }`. -/
def fetchData (st : TableState) (res : FetchResult) : TableState :=
  match res with
  | .failure msg =>
    { st with error := some msg, allRows := [], loading := false }
  | r =>
    { st with
      allRows := extractRows r
      currentPage := 1
      selectedRows := ∅
      error := none
      loading := false }

/-- `part_001`'s reaction to a data-provider row replacement:
`$: rows = dataProvider?.rows ?? []` feeding
`$: if (rows) { currentPage = 1; }` — `rows` is always an array, hence
truthy, so every replacement resets `currentPage` to 1; no code in this
variant ever clears `selectedRows`. -/
def providerReload1 (st : TableState) (rows : List Row) : TableState :=
  { st with allRows := rows, currentPage := 1 }

/-! ### Sort toggling -/

/-- `handleSort(key)`:
`if (!sortable) return;
sortConfig = { key, direction: sortConfig.key === key &&
  sortConfig.direction === "asc" ? "desc" : "asc" };`. -/
def handleSort (sortable : Bool) (cfg : SortConfig) (key : String) : SortConfig :=
  if !sortable then cfg
  else
    { key := some key
      direction :=
        if cfg.key = some key ∧ cfg.direction = .asc then .desc else .asc }

/-! ### Value formatting -/

/-- `formatValue(value, type)` from `Component.svelte` / `part_000`.  The two
locale-dependent platform calls — `new Date(value).toLocaleDateString()` and
`value.toLocaleString()` — are passed in as parameters `locDate` / `locNum`,
since their output is decided by the host platform, not by this repository. -/
def formatValue (locDate : JsValue → String) (locNum : Int → String)
    (value : JsValue) (type : String) : JsValue :=
  if value = .null ∨ value = .undefined then .str ""
  else if type = "datetime" then .str (locDate value)
  else if type = "number" then
    match value with
    | .num n => .str (locNum n)
    | _ => value
  else if type = "boolean" then .str (if jsTruthy value then "Yes" else "No")
  else if type = "options" then
    match value with
    | .arr l => .str (String.intercalate ", " l)
    | _ => value
  else .str (jsToString value)

/-- `formatValue(value, type)` from `part_001`: identical to the fixture and
fetch versions except that it has *no* `options` case — any value of
declared type `options` falls through to the default `String(value)`
branch. -/
def formatValue1 (locDate : JsValue → String) (locNum : Int → String)
    (value : JsValue) (type : String) : JsValue :=
  if value = .null ∨ value = .undefined then .str ""
  else if type = "datetime" then .str (locDate value)
  else if type = "number" then
    match value with
    | .num n => .str (locNum n)
    | _ => value
  else if type = "boolean" then .str (if jsTruthy value then "Yes" else "No")
  else .str (jsToString value)

/-- Modelled from the spec: the host platform's
`new Date(value).toLocaleDateString()` ("`datetime` → locale date string"),
which is not code of this repository.  Rendered as the en-US `M/D/YYYY`
short date of an ISO-8601 timestamp string (the format of every datetime in
the repository's data), `""` on other inputs. -/
def localeDateModel (v : JsValue) : String :=
  match v with
  | .str s =>
    let cs := s.data
    let dropZero := fun (t : List Char) =>
      match t with
      | '0' :: rest => rest
      | u => u
    String.mk
      (dropZero ((cs.drop 5).take 2) ++ '/' :: dropZero ((cs.drop 8).take 2) ++
        '/' :: cs.take 4)
  | _ => ""

/-- Split a reversed digit list into groups of three. -/
def chunk3 : List Char → List (List Char)
  | a :: b :: c :: rest@(_ :: _) => [a, b, c] :: chunk3 rest
  | [] => []
  | l => [l]

/-- Modelled from the spec: the host platform's `Number.prototype.
toLocaleString()` ("`number` → locale-formatted number"), which is not code
of this repository.  Rendered as en-US three-digit grouping. -/
def localeNumModel (n : Int) : String :=
  let ds := (toString n.natAbs).data.reverse
  let groups := ((chunk3 ds).map fun g => String.mk g.reverse).reverse
  (if n < 0 then "-" else "") ++ String.intercalate "," groups

/-! ### Claim-side (specification) definitions, for refinement comparisons -/

/-- The display string of claim C4's words: "non-string values (numbers,
booleans, null/undefined) are coerced to their display string before
comparison, with null/undefined coercing to the empty string". -/
def displayStringC4 : JsValue → String
  | .null => ""
  | .undefined => ""
  | v => jsToString v

/-- The filter stage as claim C4 words it: keep the rows with at least one
column whose display string case-insensitively contains the term; the empty
term keeps every row. -/
def filteredSpecC4 (rows : List Row) (searchTerm : String) (columns : List String) :
    List Row :=
  rows.filter fun item =>
    (searchTerm == "") ||
      columns.any fun col =>
        strIncludes (asciiLower (displayStringC4 (rowGet item col)))
          (asciiLower searchTerm)

/-- `formatValue` as the amended claim C9 words it: null/undefined first,
then the boolean, number and options clauses, a locale date for `datetime`,
and plain stringification for every remaining type. -/
def formatSpecC9 (locDate : JsValue → String) (locNum : Int → String)
    (value : JsValue) (type : String) : JsValue :=
  if value = .null ∨ value = .undefined then .str ""
  else if type = "boolean" then .str (if jsTruthy value then "Yes" else "No")
  else if type = "number" then
    match value with
    | .num n => .str (locNum n)
    | _ => value
  else if type = "options" then
    match value with
    | .arr l => .str (String.intercalate ", " l)
    | _ => value
  else if type = "datetime" then .str (locDate value)
  else .str (jsToString value)

/-- Whether a value is a string. -/
def isStrV : JsValue → Bool
  | .str _ => true
  | _ => false

/-- A sort column whose values are mutually comparable under JavaScript `<`:
either every row's value is a string (compared lexicographically), or every
row's value is a non-string with a numeric coercion (number, boolean or
null).  Mixed columns fall to the engine-defined comparator behaviour the
specification explicitly leaves open. -/
def SortableColumn (key : String) (rows : List Row) : Prop :=
  (∀ r ∈ rows, isStrV (rowGet r key) = true) ∨
    (∀ r ∈ rows, isStrV (rowGet r key) = false ∧ (toNumOpt (rowGet r key)).isSome = true)

instance (key : String) (rows : List Row) : Decidable (SortableColumn key rows) := by
  unfold SortableColumn
  exact inferInstance

/-! ## Lemmas: the stable sort -/

theorem bool_eq_false {b : Bool} (h : ¬ b = true) : b = false := by
  cases b
  · rfl
  · exact absurd rfl h

theorem insertStable_perm (bf : α → α → Bool) (x : α) (l : List α) :
    List.Perm (insertStable bf x l) (x :: l) := by
  induction l with
  | nil => exact List.Perm.refl _
  | cons h t ih =>
    unfold insertStable
    by_cases hb : bf h x = true
    · rw [if_pos hb]
      exact (ih.cons h).trans (List.Perm.swap x h t)
    · rw [if_neg hb]

theorem stableSort_perm (bf : α → α → Bool) (l : List α) :
    List.Perm (stableSort bf l) l := by
  induction l with
  | nil => exact List.Perm.refl _
  | cons h t ih => exact (insertStable_perm bf h _).trans (ih.cons h)

theorem mem_insertStable (bf : α → α → Bool) (x : α) (l : List α) (a : α) :
    a ∈ insertStable bf x l ↔ a = x ∨ a ∈ l := by
  rw [(insertStable_perm bf x l).mem_iff, List.mem_cons]

theorem mem_stableSort (bf : α → α → Bool) (l : List α) (a : α) :
    a ∈ stableSort bf l ↔ a ∈ l :=
  (stableSort_perm bf l).mem_iff

theorem insertStable_congr (bf bf' : α → α → Bool) (x : α) (l : List α)
    (h : ∀ a ∈ l, bf a x = bf' a x) :
    insertStable bf x l = insertStable bf' x l := by
  induction l with
  | nil => rfl
  | cons hd t ih =>
    unfold insertStable
    rw [h hd (List.mem_cons_self hd t),
      ih fun a ha => h a (List.mem_cons_of_mem _ ha)]

theorem stableSort_congr (bf bf' : α → α → Bool) (l : List α)
    (h : ∀ a ∈ l, ∀ b ∈ l, bf a b = bf' a b) :
    stableSort bf l = stableSort bf' l := by
  induction l with
  | nil => rfl
  | cons hd t ih =>
    unfold stableSort
    rw [ih fun a ha b hb =>
      h a (List.mem_cons_of_mem _ ha) b (List.mem_cons_of_mem _ hb)]
    refine insertStable_congr _ _ _ _ fun a ha => ?_
    exact h a (List.mem_cons_of_mem _ ((mem_stableSort bf' t a).mp ha)) hd
      (List.mem_cons_self hd t)

theorem insertStable_pairwise (bf : α → α → Bool)
    (Hasym : ∀ a b, bf a b = true → bf b a = false)
    (Hneg : ∀ a b c, bf a b = false → bf b c = false → bf a c = false)
    (x : α) (l : List α) (hl : l.Pairwise fun a b => bf b a = false) :
    (insertStable bf x l).Pairwise fun a b => bf b a = false := by
  induction l with
  | nil => exact List.pairwise_singleton _ x
  | cons h t ih =>
    rw [List.pairwise_cons] at hl
    obtain ⟨hh, ht⟩ := hl
    unfold insertStable
    by_cases hb : bf h x = true
    · rw [if_pos hb]
      refine List.Pairwise.cons ?_ (ih ht)
      intro b hbmem
      rcases (mem_insertStable bf x t b).mp hbmem with rfl | hbt
      · exact Hasym h b hb
      · exact hh b hbt
    · rw [if_neg hb]
      have hbx : bf h x = false := bool_eq_false hb
      refine List.Pairwise.cons ?_ (List.Pairwise.cons hh ht)
      intro b hbmem
      rcases List.mem_cons.mp hbmem with rfl | hbt
      · exact hbx
      · exact Hneg b h x (hh b hbt) hbx

theorem stableSort_pairwise (bf : α → α → Bool)
    (Hasym : ∀ a b, bf a b = true → bf b a = false)
    (Hneg : ∀ a b c, bf a b = false → bf b c = false → bf a c = false)
    (l : List α) :
    (stableSort bf l).Pairwise fun a b => bf b a = false := by
  induction l with
  | nil => exact List.Pairwise.nil
  | cons h t ih => exact insertStable_pairwise bf Hasym Hneg h _ ih

theorem filter_insertStable_of_tie (bf : α → α → Bool)
    (Hneg : ∀ a b c, bf a b = false → bf b c = false → bf a c = false)
    (x x0 : α) (l : List α) (hx : (!bf x x0 && !bf x0 x) = true) :
    (insertStable bf x l).filter (fun y => !bf y x0 && !bf x0 y) =
      x :: l.filter fun y => !bf y x0 && !bf x0 y := by
  induction l with
  | nil => simp [insertStable, List.filter, hx]
  | cons h t ih =>
    unfold insertStable
    by_cases hb : bf h x = true
    · rw [if_pos hb]
      have hx0x : bf x0 x = false := by
        revert hx
        cases bf x0 x <;> simp
      have hhx0 : (!bf h x0 && !bf x0 h) = false := by
        by_cases hc : bf h x0 = true
        · rw [hc]
          rfl
        · exact absurd (Hneg h x0 x (bool_eq_false hc) hx0x) (by rw [hb]; simp)
      rw [List.filter_cons, hhx0]
      simp only [Bool.false_eq_true, if_false, ih]
      rw [List.filter_cons, hhx0]
      simp
    · rw [if_neg hb, List.filter_cons, hx]
      simp

theorem filter_insertStable_of_not_tie (bf : α → α → Bool)
    (x x0 : α) (l : List α) (hx : (!bf x x0 && !bf x0 x) = false) :
    (insertStable bf x l).filter (fun y => !bf y x0 && !bf x0 y) =
      l.filter fun y => !bf y x0 && !bf x0 y := by
  induction l with
  | nil => simp [insertStable, List.filter, hx]
  | cons h t ih =>
    unfold insertStable
    by_cases hb : bf h x = true
    · rw [if_pos hb, List.filter_cons, List.filter_cons]
      rcases hcond : (!bf h x0 && !bf x0 h) with _ | _
      · simp only [Bool.false_eq_true, if_false, ih]
      · simp only [if_true, ih]
    · rw [if_neg hb, List.filter_cons, hx]
      simp

theorem filter_stableSort_tie (bf : α → α → Bool)
    (Hneg : ∀ a b c, bf a b = false → bf b c = false → bf a c = false)
    (l : List α) (x0 : α) :
    (stableSort bf l).filter (fun y => !bf y x0 && !bf x0 y) =
      l.filter fun y => !bf y x0 && !bf x0 y := by
  induction l with
  | nil => rfl
  | cons h t ih =>
    unfold stableSort
    rcases hh : (!bf h x0 && !bf x0 h) with _ | _
    · rw [filter_insertStable_of_not_tie bf h x0 _ hh, ih, List.filter_cons, hh]
      simp
    · rw [filter_insertStable_of_tie bf Hneg h x0 _ hh, ih, List.filter_cons, hh]
      simp

/-! ## Lemmas: the comparison operators -/

theorem lexLt_nil_right (x : List Char) : lexLt x [] = false := by
  cases x <;> rfl

theorem lexLt_asymm (x : List Char) :
    ∀ y, lexLt x y = true → lexLt y x = false := by
  induction x with
  | nil =>
    intro y _
    exact lexLt_nil_right y
  | cons a as ih =>
    intro y h
    cases y with
    | nil => rw [lexLt_nil_right] at h; cases h
    | cons b bs =>
      unfold lexLt at h ⊢
      by_cases h1 : a.toNat < b.toNat
      · rw [if_neg (by omega), if_pos h1]
      · by_cases h2 : b.toNat < a.toNat
        · rw [if_neg h1, if_pos h2] at h
          cases h
        · rw [if_neg h1, if_neg h2] at h
          rw [if_neg h2, if_neg h1]
          exact ih bs h

theorem lexLt_negtrans (x : List Char) :
    ∀ y z, lexLt x y = false → lexLt y z = false → lexLt x z = false := by
  induction x with
  | nil =>
    intro y z h1 h2
    cases y with
    | nil =>
      cases z with
      | nil => rfl
      | cons _ _ => cases h2
    | cons _ _ => cases h1
  | cons a as ih =>
    intro y z h1 h2
    cases z with
    | nil => exact lexLt_nil_right _
    | cons c cs =>
      cases y with
      | nil => cases h2
      | cons b bs =>
        unfold lexLt at h1 h2 ⊢
        by_cases hab : a.toNat < b.toNat
        · rw [if_pos hab] at h1
          cases h1
        · by_cases hbc : b.toNat < c.toNat
          · rw [if_pos hbc] at h2
            cases h2
          · rw [if_neg (by omega)]
            by_cases hca : c.toNat < a.toNat
            · rw [if_pos hca]
            · rw [if_neg hca]
              have hba : ¬ b.toNat < a.toNat := by omega
              have hcb : ¬ c.toNat < b.toNat := by omega
              rw [if_neg hab, if_neg hba] at h1
              rw [if_neg hbc, if_neg hcb] at h2
              exact ih bs cs h1 h2

theorem numLtB_asymm (x y : Option Int) (h : numLtB x y = true) :
    numLtB y x = false := by
  rcases x with _ | m <;> rcases y with _ | n <;> simp [numLtB] at h ⊢
  omega

theorem jsLt_asymm (a b : JsValue) (h : jsLt a b = true) : jsLt b a = false := by
  cases a <;> cases b <;> simp only [jsLt] at h ⊢ <;>
    first
      | exact lexLt_asymm _ _ h
      | exact numLtB_asymm _ _ h

theorem sortCmp_asc_lt (k : String) (a b : Row) :
    decide (sortCmp k .asc a b < 0) = jsLt (rowGet a k) (rowGet b k) := by
  unfold sortCmp
  by_cases h1 : jsLt (rowGet a k) (rowGet b k) = true
  · rw [if_pos h1, h1]
    rfl
  · rw [if_neg h1, bool_eq_false h1]
    by_cases h2 : jsLt (rowGet b k) (rowGet a k) = true
    · rw [if_pos h2]
      rfl
    · rw [if_neg h2]
      rfl

theorem sortCmp_desc_lt (k : String) (a b : Row) :
    decide (sortCmp k .desc a b < 0) = jsLt (rowGet b k) (rowGet a k) := by
  unfold sortCmp
  by_cases h1 : jsLt (rowGet a k) (rowGet b k) = true
  · rw [if_pos h1, jsLt_asymm _ _ h1]
    rfl
  · rw [if_neg h1]
    by_cases h2 : jsLt (rowGet b k) (rowGet a k) = true
    · rw [if_pos h2, h2]
      rfl
    · rw [if_neg h2, bool_eq_false h2]
      rfl

theorem sortedData_asc_eq (k : String) (hk : ¬ k = "") (l : List Row) :
    sortedData ⟨some k, .asc⟩ l =
      stableSort (fun a b => jsLt (rowGet a k) (rowGet b k)) l := by
  have hdef : sortedData ⟨some k, .asc⟩ l =
      if k = "" then l
      else stableSort (fun a b => decide (sortCmp k .asc a b < 0)) l := rfl
  rw [hdef, if_neg hk]
  congr 1
  funext a b
  exact sortCmp_asc_lt k a b

theorem sortedData_desc_eq (k : String) (hk : ¬ k = "") (l : List Row) :
    sortedData ⟨some k, .desc⟩ l =
      stableSort (fun a b => jsLt (rowGet b k) (rowGet a k)) l := by
  have hdef : sortedData ⟨some k, .desc⟩ l =
      if k = "" then l
      else stableSort (fun a b => decide (sortCmp k .desc a b < 0)) l := rfl
  rw [hdef, if_neg hk]
  congr 1
  funext a b
  exact sortCmp_desc_lt k a b

theorem jsLt_of_str (va vb : JsValue) (ha : isStrV va = true) (hb : isStrV vb = true) :
    jsLt va vb = lexLt (strKeyData va) (strKeyData vb) := by
  cases va <;> simp [isStrV] at ha
  cases vb <;> simp [isStrV] at hb
  rfl

theorem jsLt_of_num (va vb : JsValue) (ha1 : isStrV va = false)
    (hb1 : isStrV vb = false) (ha2 : (toNumOpt va).isSome = true)
    (hb2 : (toNumOpt vb).isSome = true) :
    jsLt va vb = decide (numOfD va < numOfD vb) := by
  have hmatch : jsLt va vb = numLtB (toNumOpt va) (toNumOpt vb) := by
    cases va <;> cases vb <;> first | rfl | simp [isStrV] at ha1 hb1
  obtain ⟨m, hm⟩ := Option.isSome_iff_exists.mp ha2
  obtain ⟨n, hn⟩ := Option.isSome_iff_exists.mp hb2
  rw [hmatch, numOfD, numOfD, hm, hn]
  rfl

/-- The whole ascending-then-descending sort pipeline, for any global
comparator `bf` that is asymmetric, negatively transitive, and agrees with
the source's `jsLt`-based comparison on the rows of `R`. -/
theorem sort_pipeline_of_bf (R : List Row) (key : String) (hk : ¬ key = "")
    (bf : Row → Row → Bool)
    (Hasym : ∀ a b, bf a b = true → bf b a = false)
    (Hneg : ∀ a b c, bf a b = false → bf b c = false → bf a c = false)
    (Hagree : ∀ a ∈ R, ∀ b ∈ R, jsLt (rowGet a key) (rowGet b key) = bf a b) :
    List.Perm (sortedData ⟨some key, .asc⟩ R) R ∧
    List.Perm (sortedData ⟨some key, .desc⟩ (sortedData ⟨some key, .asc⟩ R)) R ∧
    (sortedData ⟨some key, .asc⟩ R).Pairwise
      (fun a b => jsLt (rowGet b key) (rowGet a key) = false) ∧
    (sortedData ⟨some key, .desc⟩ (sortedData ⟨some key, .asc⟩ R)).Pairwise
      (fun a b => jsLt (rowGet a key) (rowGet b key) = false) ∧
    (∀ x0 ∈ R, (sortedData ⟨some key, .asc⟩ R).filter (fun r => tieB key r x0) =
      R.filter fun r => tieB key r x0) ∧
    (∀ x0 ∈ R,
      (sortedData ⟨some key, .desc⟩ (sortedData ⟨some key, .asc⟩ R)).filter
        (fun r => tieB key r x0) = R.filter fun r => tieB key r x0) := by
  have hA : sortedData ⟨some key, .asc⟩ R = stableSort bf R := by
    rw [sortedData_asc_eq key hk]
    exact stableSort_congr _ _ _ fun a ha b hb => Hagree a ha b hb
  have permA : List.Perm (sortedData ⟨some key, .asc⟩ R) R := by
    rw [hA]
    exact stableSort_perm bf R
  have memA : ∀ r ∈ sortedData ⟨some key, .asc⟩ R, r ∈ R :=
    fun r hr => permA.mem_iff.mp hr
  have Hasym' : ∀ a b, (fun a b => bf b a) a b = true → (fun a b => bf b a) b a = false :=
    fun a b h => Hasym b a h
  have Hneg' : ∀ a b c, (fun a b => bf b a) a b = false →
      (fun a b => bf b a) b c = false → (fun a b => bf b a) a c = false :=
    fun a b c h1 h2 => Hneg c b a h2 h1
  have hD : sortedData ⟨some key, .desc⟩ (sortedData ⟨some key, .asc⟩ R) =
      stableSort (fun a b => bf b a) (sortedData ⟨some key, .asc⟩ R) := by
    rw [sortedData_desc_eq key hk]
    exact stableSort_congr _ _ _ fun a ha b hb => Hagree b (memA b hb) a (memA a ha)
  have permD :
      List.Perm (sortedData ⟨some key, .desc⟩ (sortedData ⟨some key, .asc⟩ R)) R := by
    rw [hD]
    exact (stableSort_perm _ _).trans permA
  have memD : ∀ r ∈ sortedData ⟨some key, .desc⟩ (sortedData ⟨some key, .asc⟩ R),
      r ∈ R := fun r hr => permD.mem_iff.mp hr
  have tieA : ∀ x0 ∈ R,
      (sortedData ⟨some key, .asc⟩ R).filter (fun r => tieB key r x0) =
        R.filter fun r => tieB key r x0 := by
    intro x0 hx0
    have h1 : (sortedData ⟨some key, .asc⟩ R).filter (fun r => tieB key r x0) =
        (sortedData ⟨some key, .asc⟩ R).filter fun r => !bf r x0 && !bf x0 r :=
      List.filter_congr fun r hr => by
        unfold tieB
        rw [Hagree r (memA r hr) x0 hx0, Hagree x0 hx0 r (memA r hr)]
    have h3 : R.filter (fun r => !bf r x0 && !bf x0 r) =
        R.filter fun r => tieB key r x0 :=
      List.filter_congr fun r hr => by
        unfold tieB
        rw [Hagree r hr x0 hx0, Hagree x0 hx0 r hr]
    rw [h1, hA, filter_stableSort_tie bf Hneg R x0, h3]
  refine ⟨permA, permD, ?_, ?_, tieA, ?_⟩
  · rw [hA]
    refine (stableSort_pairwise bf Hasym Hneg R).imp_of_mem ?_
    intro a b ha hb hba
    rw [← hA] at ha hb
    rw [Hagree b (memA b hb) a (memA a ha)]
    exact hba
  · rw [hD]
    refine (stableSort_pairwise _ Hasym' Hneg' _).imp_of_mem ?_
    intro a b ha hb hab
    rw [← hD] at ha hb
    rw [Hagree a (memD a ha) b (memD b hb)]
    exact hab
  · intro x0 hx0
    have h1 : (sortedData ⟨some key, .desc⟩ (sortedData ⟨some key, .asc⟩ R)).filter
        (fun r => tieB key r x0) =
        (sortedData ⟨some key, .desc⟩ (sortedData ⟨some key, .asc⟩ R)).filter
          fun r => !bf x0 r && !bf r x0 :=
      List.filter_congr fun r hr => by
        unfold tieB
        rw [Hagree r (memD r hr) x0 hx0, Hagree x0 hx0 r (memD r hr)]
        exact Bool.and_comm _ _
    have h2 : (sortedData ⟨some key, .asc⟩ R).filter (fun r => !bf x0 r && !bf r x0) =
        (sortedData ⟨some key, .asc⟩ R).filter fun r => tieB key r x0 :=
      List.filter_congr fun r hr => by
        unfold tieB
        rw [Hagree r (memA r hr) x0 hx0, Hagree x0 hx0 r (memA r hr)]
        exact (Bool.and_comm _ _).symm
    rw [h1, hD, filter_stableSort_tie (fun a b => bf b a) Hneg' _ x0, h2, tieA x0 hx0]

/-! ## Lemmas: pagination -/

theorem pageCount_zero (p : Nat) (hp : 0 < p) : pageCount 0 p = 0 := by
  unfold pageCount
  exact Nat.div_eq_of_lt (by omega)

theorem pageCount_pos_eq (len p : Nat) (hp : 0 < p) (hl : 0 < len) :
    pageCount len p = (len - 1) / p + 1 := by
  unfold pageCount
  have h : len + p - 1 = (len - 1) + p := by omega
  rw [h, Nat.add_div_right _ hp]

theorem paginatedData_shift (l : List α) (p i : Nat) :
    paginatedData l (i + 2) p = paginatedData (l.drop p) (i + 1) p := by
  unfold paginatedData
  have e1 : (i + 2 - 1) * p = i * p + p := by
    have h : i + 2 - 1 = i + 1 := by omega
    rw [h, Nat.succ_mul]
  have e2 : i + 1 - 1 = i := by omega
  rw [e1, e2, List.drop_drop, Nat.add_comm]

theorem paginate_join_aux (p : Nat) (hp : 0 < p) :
    ∀ (n : Nat) (l : List α), l.length ≤ n →
      ((List.range (pageCount l.length p)).map fun i => paginatedData l (i + 1) p).flatten
        = l := by
  intro n
  induction n with
  | zero =>
    intro l hl
    have hnil : l = [] := List.length_eq_zero.mp (Nat.le_zero.mp hl)
    subst hnil
    simp [pageCount_zero p hp]
  | succ n ih =>
    intro l hl
    rcases l with _ | ⟨a, t⟩
    · simp [pageCount_zero p hp]
    · have hlen : 0 < (a :: t).length := by simp
      have hsplit : pageCount (a :: t).length p =
          pageCount ((a :: t).drop p).length p + 1 := by
        rw [List.length_drop, pageCount_pos_eq _ p hp hlen]
        by_cases hcase : (a :: t).length ≤ p
        · have h1 : (a :: t).length - p = 0 := by omega
          rw [h1, pageCount_zero p hp]
          have h2 : ((a :: t).length - 1) / p = 0 := Nat.div_eq_of_lt (by omega)
          rw [h2]
        · have h2 : 0 < (a :: t).length - p := by omega
          rw [pageCount_pos_eq _ p hp h2]
          have h3 : (a :: t).length - 1 = ((a :: t).length - p - 1) + p := by omega
          rw [h3, Nat.add_div_right _ hp]
      rw [hsplit, List.range_succ_eq_map]
      simp only [List.map_cons, List.map_map, List.flatten_cons]
      have hmap :
          (List.range (pageCount ((a :: t).drop p).length p)).map
              ((fun i => paginatedData (a :: t) (i + 1) p) ∘ Nat.succ) =
            (List.range (pageCount ((a :: t).drop p).length p)).map
              fun i => paginatedData ((a :: t).drop p) (i + 1) p := by
        refine List.map_congr_left fun i _ => ?_
        show paginatedData (a :: t) (i + 1 + 1) p = _
        exact paginatedData_shift (a :: t) p i
      rw [hmap, ih ((a :: t).drop p) (by rw [List.length_drop]; omega)]
      show paginatedData (a :: t) 1 p ++ (a :: t).drop p = a :: t
      unfold paginatedData
      have h0 : (1 - 1) * p = 0 := by omega
      rw [h0, List.drop_zero, List.take_append_drop]

theorem paginate_len_full (l : List α) (p j : Nat) (hp : 0 < p) (hj : 1 ≤ j)
    (hlt : j < pageCount l.length p) : (paginatedData l j p).length = p := by
  have hlen : 0 < l.length := by
    by_contra hc
    have h0 : l.length = 0 := by omega
    rw [h0, pageCount_zero p hp] at hlt
    omega
  rw [pageCount_pos_eq _ p hp hlen] at hlt
  have hjle : j ≤ (l.length - 1) / p := by omega
  have hmul : j * p ≤ l.length - 1 := (Nat.le_div_iff_mul_le hp).mp hjle
  have hsum : (j - 1) * p + p = j * p := by
    cases j with
    | zero => omega
    | succ j' => simp [Nat.succ_mul]
  unfold paginatedData
  rw [List.length_take, List.length_drop]
  rw [Nat.min_eq_left (by omega)]

theorem paginate_last (l : List α) (p : Nat) (hp : 0 < p) (hl : 0 < l.length) :
    1 ≤ (paginatedData l (pageCount l.length p) p).length ∧
      (paginatedData l (pageCount l.length p) p).length ≤ p := by
  have hK := pageCount_pos_eq l.length p hp hl
  have hdiv : ((l.length - 1) / p) * p ≤ l.length - 1 := Nat.div_mul_le_self _ _
  unfold paginatedData
  rw [List.length_take, List.length_drop, hK]
  have he : ((l.length - 1) / p + 1 - 1) * p = ((l.length - 1) / p) * p := by
    simp
  rw [he]
  constructor
  · have h1 : 1 ≤ l.length - (l.length - 1) / p * p := by omega
    exact Nat.le_min.mpr ⟨hp, h1⟩
  · exact Nat.min_le_left _ _

theorem paginate_out_of_range (l : List α) (p cp : Nat)
    (h : l.length ≤ (cp - 1) * p) : paginatedData l cp p = [] := by
  unfold paginatedData
  rw [List.drop_eq_nil_of_le h, List.take_nil]

/-! ## The claims -/

/-- **C5** — For every row list `R` and sort key whose column values are
mutually comparable, sorting `R` ascending and then sorting the result
descending reverses only the strict-inequality order (each output is a
permutation of `R`, weakly sorted in its direction, so strictly-ordered
pairs appear in opposite relative order in the two outputs), while elements
whose key values compare equal keep their original (filter-stage) relative
order in both directions — the sort stage is stable for equal keys. -/
theorem c5_sort_stable (R : List Row) (key : String) (hkey : ¬ key = "")
    (H : SortableColumn key R) :
    List.Perm (sortedData ⟨some key, .asc⟩ R) R ∧
    List.Perm (sortedData ⟨some key, .desc⟩ (sortedData ⟨some key, .asc⟩ R)) R ∧
    (sortedData ⟨some key, .asc⟩ R).Pairwise
      (fun a b => jsLt (rowGet b key) (rowGet a key) = false) ∧
    (sortedData ⟨some key, .desc⟩ (sortedData ⟨some key, .asc⟩ R)).Pairwise
      (fun a b => jsLt (rowGet a key) (rowGet b key) = false) ∧
    (∀ x0 ∈ R, (sortedData ⟨some key, .asc⟩ R).filter (fun r => tieB key r x0) =
      R.filter fun r => tieB key r x0) ∧
    (∀ x0 ∈ R,
      (sortedData ⟨some key, .desc⟩ (sortedData ⟨some key, .asc⟩ R)).filter
        (fun r => tieB key r x0) = R.filter fun r => tieB key r x0) := by
  rcases H with hstr | hnum
  · exact sort_pipeline_of_bf R key hkey
      (fun a b => lexLt (strKeyData (rowGet a key)) (strKeyData (rowGet b key)))
      (fun a b h => lexLt_asymm _ _ h)
      (fun a b c h1 h2 => lexLt_negtrans _ _ _ h1 h2)
      (fun a ha b hb => jsLt_of_str _ _ (hstr a ha) (hstr b hb))
  · exact sort_pipeline_of_bf R key hkey
      (fun a b => decide (numOfD (rowGet a key) < numOfD (rowGet b key)))
      (fun a b h => by
        simp only [decide_eq_true_eq] at h
        simp only [decide_eq_false_iff_not]
        omega)
      (fun a b c h1 h2 => by
        simp only [decide_eq_false_iff_not] at h1 h2 ⊢
        omega)
      (fun a ha b hb =>
        jsLt_of_num _ _ (hnum a ha).1 (hnum b hb).1 (hnum a ha).2 (hnum b hb).2)

/-- **C6** — For every row list `R` and page size `p > 0`, concatenating the
page slices for pages `1 .. ceil(|R| / p)` reconstructs `R` exactly; every
page before the last has length exactly `p`; the last page has length
between 1 and `p`; and a `currentPage` whose start index is at or past `|R|`
yields the empty slice. -/
theorem c6_pagination (R : List Row) (p : Nat) (hp : 0 < p) :
    ((List.range (pageCount R.length p)).map fun i => paginatedData R (i + 1) p).flatten
        = R ∧
    (∀ j, 1 ≤ j → j < pageCount R.length p → (paginatedData R j p).length = p) ∧
    (0 < R.length →
      1 ≤ (paginatedData R (pageCount R.length p) p).length ∧
        (paginatedData R (pageCount R.length p) p).length ≤ p) ∧
    ∀ cp, R.length ≤ (cp - 1) * p → paginatedData R cp p = [] := by
  refine ⟨paginate_join_aux p hp R.length R (Nat.le_refl _), ?_, ?_, ?_⟩
  · intro j hj hlt
    exact paginate_len_full R p j hp hj hlt
  · intro hl
    exact paginate_last R p hp hl
  · intro cp hcp
    exact paginate_out_of_range R p cp hcp

/-- Witness for C6 on seven one-field rows with page size 3. -/
theorem c6_pagination_witness :
    ((List.range
        (pageCount
          ([[("a", JsValue.num 1)], [("a", JsValue.num 2)], [("a", JsValue.num 3)],
            [("a", JsValue.num 4)], [("a", JsValue.num 5)], [("a", JsValue.num 6)],
            [("a", JsValue.num 7)]] : List Row).length 3)).map
      fun i =>
        paginatedData
          ([[("a", JsValue.num 1)], [("a", JsValue.num 2)], [("a", JsValue.num 3)],
            [("a", JsValue.num 4)], [("a", JsValue.num 5)], [("a", JsValue.num 6)],
            [("a", JsValue.num 7)]] : List Row) (i + 1) 3).flatten =
      [[("a", JsValue.num 1)], [("a", JsValue.num 2)], [("a", JsValue.num 3)],
        [("a", JsValue.num 4)], [("a", JsValue.num 5)], [("a", JsValue.num 6)],
        [("a", JsValue.num 7)]] :=
  (c6_pagination
    [[("a", JsValue.num 1)], [("a", JsValue.num 2)], [("a", JsValue.num 3)],
      [("a", JsValue.num 4)], [("a", JsValue.num 5)], [("a", JsValue.num 6)],
      [("a", JsValue.num 7)]] 3 (by decide)).1

/-- **C7** — For every `totalPages ≥ 1` and `currentPage ∈ [1, totalPages]`,
the page-button windowing yields pages `1..totalPages` when
`totalPages ≤ 5`; otherwise `[1,5]` when `currentPage ≤ 3`,
`[totalPages-4, totalPages]` when `currentPage ≥ totalPages-2`, and
`[currentPage-2, currentPage+2]` in between; in particular for
`totalPages = 12` the windows at `currentPage` 1, 7 and 12 are `[1..5]`,
`[5..9]` and `[8..12]`. -/
theorem c7_page_window (tp cp : Nat) (h1 : 1 ≤ tp) (h2 : 1 ≤ cp) (h3 : cp ≤ tp) :
    pageWindow tp cp =
      (if tp ≤ 5 then windowFrom 1 tp
       else if cp ≤ 3 then windowFrom 1 5
       else if tp - 2 ≤ cp then windowFrom (tp - 4) 5
       else windowFrom (cp - 2) 5) ∧
    pageWindow 12 1 = [1, 2, 3, 4, 5] ∧
    pageWindow 12 7 = [5, 6, 7, 8, 9] ∧
    pageWindow 12 12 = [8, 9, 10, 11, 12] := by
  refine ⟨?_, by decide, by decide, by decide⟩
  by_cases htp : tp ≤ 5
  · rw [if_pos htp]
    unfold pageWindow windowFrom
    rw [Nat.min_eq_right htp]
    exact List.map_congr_left fun i _ => by rw [if_pos htp, Nat.add_comm]
  · rw [if_neg htp]
    have hmin : min 5 tp = 5 := Nat.min_eq_left (by omega)
    by_cases hcp : cp ≤ 3
    · rw [if_pos hcp]
      unfold pageWindow windowFrom
      rw [hmin]
      exact List.map_congr_left fun i _ => by
        rw [if_neg htp, if_pos hcp, Nat.add_comm]
    · rw [if_neg hcp]
      by_cases hhi : tp - 2 ≤ cp
      · rw [if_pos hhi]
        unfold pageWindow windowFrom
        rw [hmin]
        exact List.map_congr_left fun i _ => by
          rw [if_neg htp, if_neg hcp, if_pos hhi, Nat.add_comm]
      · rw [if_neg hhi]
        unfold pageWindow windowFrom
        rw [hmin]
        exact List.map_congr_left fun i _ => by
          rw [if_neg htp, if_neg hcp, if_neg hhi, Nat.add_comm]

/-- Witness for C7 at `totalPages = 9`, `currentPage = 6`. -/
theorem c7_page_window_witness :
    pageWindow 9 6 =
      (if 9 ≤ 5 then windowFrom 1 9
       else if 6 ≤ 3 then windowFrom 1 5
       else if 9 - 2 ≤ 6 then windowFrom (9 - 4) 5
       else windowFrom (6 - 2) 5) :=
  (c7_page_window 9 6 (by decide) (by decide) (by decide)).1

/-- **C1** (counterexample) — With the selection holding one identity from
another page and a two-row current page none of whose identities are
selected, the claim's "otherwise" branch applies, yet `handleSelectAll`
*removes* the previously selected identity instead of accumulating: the
selection is replaced by the page's identities. -/
theorem c1_counterexample :
    ¬ (∀ i ∈ pageIds [[("_id", JsValue.str "a")], [("_id", JsValue.str "b")]],
        i ∈ ({JsValue.str "z"} : Finset JsValue)) ∧
      JsValue.str "z" ∉
        handleSelectAll true {JsValue.str "z"}
          [[("_id", JsValue.str "a")], [("_id", JsValue.str "b")]] := by
  decide

/-- **C1** (amended) — `handleSelectAll` is a no-op when `selectable` is off;
when it is on, it empties the whole selection exactly when the selection's
*size* equals the current page's row count and the page is non-empty, and in
every other case it *replaces* the selection with exactly the current page's
identities, dropping any identity not on the current page. -/
theorem c1_select_all_toggle (S : Finset JsValue) (P : List Row) :
    handleSelectAll false S P = S ∧
    (S.card = P.length ∧ 0 < P.length → handleSelectAll true S P = ∅) ∧
    (¬ (S.card = P.length ∧ 0 < P.length) →
      handleSelectAll true S P = pageIds P ∧
        ∀ x, x ∉ P.map getRowId → x ∉ handleSelectAll true S P) := by
  refine ⟨rfl, fun h => ?_, fun h => ?_⟩
  · unfold handleSelectAll
    rw [if_neg (by simp), if_pos h]
  · have hsel : handleSelectAll true S P = pageIds P := by
      unfold handleSelectAll
      rw [if_neg (by simp), if_neg h]
    refine ⟨hsel, fun x hx => ?_⟩
    rw [hsel]
    unfold pageIds
    rw [List.mem_toFinset]
    exact hx

/-- Witness for C1 at a selection equal in size to a one-row page. -/
theorem c1_select_all_toggle_witness :
    handleSelectAll true {JsValue.str "q"} [[("_id", JsValue.str "q")]] = ∅ :=
  (c1_select_all_toggle {JsValue.str "q"} [[("_id", JsValue.str "q")]]).2.1
    (by decide)

/-- **C2** (counterexample) — Toggling "select all" twice on an unchanged
non-empty page does *not* return to the original selection set when the
original selection holds one identity from another page: the first toggle
(size 1 = page length 1) clears, the second selects the page, ending at the
page's identity instead of the original one. -/
theorem c2_counterexample :
    ([[("_id", JsValue.str "y")]] : List Row) ≠ [] ∧
      handleSelectAll true
          (handleSelectAll true {JsValue.str "x"} [[("_id", JsValue.str "y")]])
          [[("_id", JsValue.str "y")]] ≠
        ({JsValue.str "x"} : Finset JsValue) := by
  decide

/-- **C2** (amended) — On a non-empty unchanged page with distinct row
identities, toggling "select all" twice returns to the original selection
set when that set is empty, or when it is exactly the page's identity set;
and navigating between pages (assigning `currentPage` only) never changes
the selection set. -/
theorem c2_double_toggle (P : List Row) (S : Finset JsValue) (st : TableState)
    (pageNum : Nat) (hP : P ≠ []) (hnd : (P.map getRowId).Nodup) :
    (S = ∅ →
      handleSelectAll true (handleSelectAll true S P) P = S) ∧
    (S = pageIds P → S.card = P.length →
      handleSelectAll true (handleSelectAll true S P) P = S) ∧
    (setPage st pageNum).selectedRows = st.selectedRows := by
  have hPlen : 0 < P.length := List.length_pos.mpr hP
  have hcard : (pageIds P).card = P.length := by
    unfold pageIds
    rw [List.toFinset_card_of_nodup hnd, List.length_map]
  have hfill : handleSelectAll true ∅ P = pageIds P := by
    unfold handleSelectAll
    rw [if_neg (by simp), if_neg (by simp; omega)]
  have hclear : handleSelectAll true (pageIds P) P = ∅ := by
    unfold handleSelectAll
    rw [if_neg (by simp), if_pos ⟨hcard, hPlen⟩]
  refine ⟨fun hS => ?_, fun hS hSc => ?_, rfl⟩
  · subst hS
    rw [hfill, hclear]
  · subst hS
    rw [hclear, hfill]

/-- Witness for C2: double toggle from the empty selection on a one-row
page. -/
theorem c2_double_toggle_witness :
    handleSelectAll true
        (handleSelectAll true ∅ [[("_id", JsValue.str "y")]])
        [[("_id", JsValue.str "y")]] = ∅ :=
  (c2_double_toggle [[("_id", JsValue.str "y")]] ∅
    ⟨1, ∅, [], false, none⟩ 2 (by decide) (by decide)).1 rfl

/-- **C3** (counterexample) — A reload that ends in a fetch failure does
*not* reset the paging and selection state: starting at `currentPage = 3`
with one selected row, `part_000`'s `fetchData` leaves `currentPage = 3` and
the selection non-empty (only `error`, `allRows` and `loading` change). -/
theorem c3_counterexample :
    (fetchData ⟨3, {JsValue.str "x"}, [], true, none⟩
        (.failure "Failed to fetch data")).currentPage = 3 ∧
      (fetchData ⟨3, {JsValue.str "x"}, [], true, none⟩
        (.failure "Failed to fetch data")).selectedRows ≠ ∅ := by
  refine ⟨rfl, ?_⟩
  decide

/-- **C3** (amended) — In the fetch variant (`part_000`): after a reload that
completes with any accepted response shape (rows field, data field, bare
array, or an unrecognized shape giving the empty row set), `currentPage` is
1 and the selection set is empty; after a reload that ends in a fetch
failure, `currentPage` and the selection set are unchanged while the row
set is emptied and the error recorded.  In the provider variant
(`part_001`): every data replacement resets `currentPage` to 1, but the
selection set survives every reload (nothing clears it). -/
theorem c3_reload_reset (st : TableState) (rows : List Row) (msg : String) :
    ((fetchData st (.rowsResp rows)).currentPage = 1 ∧
      (fetchData st (.rowsResp rows)).selectedRows = ∅ ∧
      (fetchData st (.rowsResp rows)).allRows = rows) ∧
    ((fetchData st (.dataResp rows)).currentPage = 1 ∧
      (fetchData st (.dataResp rows)).selectedRows = ∅) ∧
    ((fetchData st (.arrayResp rows)).currentPage = 1 ∧
      (fetchData st (.arrayResp rows)).selectedRows = ∅) ∧
    ((fetchData st .otherResp).currentPage = 1 ∧
      (fetchData st .otherResp).selectedRows = ∅ ∧
      (fetchData st .otherResp).allRows = []) ∧
    ((fetchData st (.failure msg)).currentPage = st.currentPage ∧
      (fetchData st (.failure msg)).selectedRows = st.selectedRows ∧
      (fetchData st (.failure msg)).allRows = [] ∧
      (fetchData st (.failure msg)).error = some msg ∧
      (fetchData st (.failure msg)).loading = false) ∧
    ((providerReload1 st rows).currentPage = 1 ∧
      (providerReload1 st rows).selectedRows = st.selectedRows ∧
      (providerReload1 st rows).allRows = rows) :=
  ⟨⟨rfl, rfl, rfl⟩, ⟨rfl, rfl⟩, ⟨rfl, rfl⟩, ⟨rfl, rfl, rfl⟩,
    ⟨rfl, rfl, rfl, rfl, rfl⟩, ⟨rfl, rfl, rfl⟩⟩

/-- **C4** (counterexample) — The filter coerces the *falsy* number `0` to
the empty string (`String(item[col] || "")`), so a row whose only column
holds `0` is rejected for the term `"0"` even though its display string
`"0"` contains the term; the claim's own filter keeps the row. -/
theorem c4_counterexample :
    filteredData [[("a", JsValue.num 0)]] "0" ["a"] = [] ∧
      filteredSpecC4 [[("a", JsValue.num 0)]] "0" ["a"] =
        [[("a", JsValue.num 0)]] := by
  constructor
  · decide
  · decide

/-- **C4** (amended) — The filter stage returns the subsequence of `R` whose
rows have at least one column in `C` whose *truthiness-coerced* stringified
value (`String(v || "")` — so the falsy values `0`, `false`, `""`, `null`,
`undefined` all coerce to the empty string) case-insensitively contains the
term; the empty term returns all of `R`. -/
theorem c4_filter (rows : List Row) (t : String) (cols : List String) :
    filteredData rows "" cols = rows ∧
    (filteredData rows t cols).Sublist rows ∧
    ∀ r, r ∈ filteredData rows t cols ↔
      r ∈ rows ∧ (t = "" ∨ ∃ c ∈ cols,
        strIncludes (asciiLower (jsToString (jsOrV (rowGet r c) (.str ""))))
          (asciiLower t) = true) := by
  refine ⟨?_, List.filter_sublist _, fun r => ?_⟩
  · unfold filteredData
    simp
  · unfold filteredData
    rw [List.mem_filter]
    simp [List.any_eq_true, beq_iff_eq]

/-- Witness for C4: evaluating the amended description at a two-row list. -/
theorem c4_filter_witness :
    filteredData [[("a", JsValue.str "Alice")], [("a", JsValue.str "Bob")]] ""
      ["a"] = [[("a", JsValue.str "Alice")], [("a", JsValue.str "Bob")]] :=
  (c4_filter [[("a", JsValue.str "Alice")], [("a", JsValue.str "Bob")]] "li"
    ["a"]).1

theorem jsonStringify_ne_empty (r : Row) : jsonStringify r ≠ "" := by
  unfold jsonStringify
  intro h
  have hlen := congrArg String.length h
  rw [String.length_append, String.length_append] at hlen
  have h1 : ("\x7b" : String).length = 1 := rfl
  have h2 : ("\x7d" : String).length = 1 := rfl
  have h3 : ("" : String).length = 0 := rfl
  omega

theorem jsTruthy_jsonStringify (r : Row) :
    jsTruthy (.str (jsonStringify r)) = true := by
  unfold jsTruthy
  exact decide_eq_true (jsonStringify_ne_empty r)

/-- **C8** (counterexample) — The fetch variant (`part_000`) breaks the
"single chain" claim twice over, at a row identified only by `customerid`:
its `handleSelectAll` stores `item._id || item.id || item._rev` =
`undefined` while its per-row checkbox tests `getRowId0`, which resolves to
the `JSON.stringify` fallback (so select-all and checkbox identities
disagree); and `getRowId0` itself has no `customerid` step, so it differs
from the claimed five-step chain, which would resolve the `customerid`
value. -/
theorem c8_counterexample :
    selectAllId0 [("customerid", JsValue.str "c1")] ≠
        getRowId0 [("customerid", JsValue.str "c1")] ∧
      getRowId0 [("customerid", JsValue.str "c1")] ≠
        getRowId [("customerid", JsValue.str "c1")] := by
  constructor
  · decide
  · decide

/-- **C8** (amended) — In the fixture variant (`Component.svelte`), both the
per-row checkbox and select-all resolve identity through the single
`getRowId` chain: the `_id` field, else `id`, else `customerid`, else
`_rev`, else `JSON.stringify` of the whole row; the fallback guarantees
every row a truthy identity.  In the fetch variant (`part_000`), the
checkbox chain `getRowId0` drops the `customerid` step and select-all's
chain also drops the serialization fallback: the two agree whenever the row
has a truthy `_id`, `id` or `_rev`, but select-all stores `undefined` on
fallback rows (per the counterexample).  In the provider variant
(`part_001`), select-all and the checkbox both evaluate
`row._id || row.id`, so they always agree, but rows with neither field get
the falsy identity `undefined` instead of a serialization fallback. -/
theorem c8_row_identity (r : Row) :
    (jsTruthy (rowGet r "_id") = true → getRowId r = rowGet r "_id") ∧
    (jsTruthy (rowGet r "_id") = false → jsTruthy (rowGet r "id") = true →
      getRowId r = rowGet r "id") ∧
    (jsTruthy (rowGet r "_id") = false → jsTruthy (rowGet r "id") = false →
      jsTruthy (rowGet r "customerid") = true →
      getRowId r = rowGet r "customerid") ∧
    (jsTruthy (rowGet r "_id") = false → jsTruthy (rowGet r "id") = false →
      jsTruthy (rowGet r "customerid") = false →
      jsTruthy (rowGet r "_rev") = true → getRowId r = rowGet r "_rev") ∧
    (jsTruthy (rowGet r "_id") = false → jsTruthy (rowGet r "id") = false →
      jsTruthy (rowGet r "customerid") = false →
      jsTruthy (rowGet r "_rev") = false →
      getRowId r = .str (jsonStringify r)) ∧
    jsTruthy (getRowId r) = true ∧
    (jsTruthy (rowGet r "_id") = true ∨ jsTruthy (rowGet r "id") = true ∨
      jsTruthy (rowGet r "_rev") = true → selectAllId0 r = getRowId0 r) ∧
    (jsTruthy (rowGet r "_id") = true → selectAllId1 r = rowGet r "_id") ∧
    (jsTruthy (rowGet r "_id") = false → selectAllId1 r = rowGet r "id") := by
  refine ⟨fun h1 => by simp [getRowId, jsOrV, h1],
    fun h1 h2 => by simp [getRowId, jsOrV, h1, h2],
    fun h1 h2 h3 => by simp [getRowId, jsOrV, h1, h2, h3],
    fun h1 h2 h3 h4 => by simp [getRowId, jsOrV, h1, h2, h3, h4],
    fun h1 h2 h3 h4 => by simp [getRowId, jsOrV, h1, h2, h3, h4], ?_, ?_,
    fun h1 => by simp [selectAllId1, jsOrV, h1],
    fun h1 => by simp [selectAllId1, jsOrV, h1]⟩
  · by_cases h1 : jsTruthy (rowGet r "_id") = true
    · simpa [getRowId, jsOrV, h1] using h1
    · have h1' := bool_eq_false h1
      by_cases h2 : jsTruthy (rowGet r "id") = true
      · simpa [getRowId, jsOrV, h1', h2] using h2
      · have h2' := bool_eq_false h2
        by_cases h3 : jsTruthy (rowGet r "customerid") = true
        · simpa [getRowId, jsOrV, h1', h2', h3] using h3
        · have h3' := bool_eq_false h3
          by_cases h4 : jsTruthy (rowGet r "_rev") = true
          · simpa [getRowId, jsOrV, h1', h2', h3', h4] using h4
          · have h4' := bool_eq_false h4
            simpa [getRowId, jsOrV, h1', h2', h3', h4'] using
              jsTruthy_jsonStringify r
  · intro h
    by_cases h1 : jsTruthy (rowGet r "_id") = true
    · simp [selectAllId0, getRowId0, jsOrV, h1]
    · have h1' := bool_eq_false h1
      by_cases h2 : jsTruthy (rowGet r "id") = true
      · simp [selectAllId0, getRowId0, jsOrV, h1', h2]
      · have h2' := bool_eq_false h2
        have h3 : jsTruthy (rowGet r "_rev") = true := by
          rcases h with h | h | h
          · rw [h1'] at h
            cases h
          · rw [h2'] at h
            cases h
          · exact h
        simp [selectAllId0, getRowId0, jsOrV, h1', h2', h3]

/-- Witness for C8 on a row carrying an `_id` field. -/
theorem c8_row_identity_witness :
    getRowId [("_id", JsValue.str "a")] =
      rowGet [("_id", JsValue.str "a")] "_id" :=
  (c8_row_identity [("_id", JsValue.str "a")]).1 (by decide)

/-- **C9** (counterexample) — For the declared type `"datetime"` the code
returns `new Date(value).toLocaleDateString()` — a locale date rendering —
not the stringification of `v` that the claim's "any other type" clause
requires: on the ISO timestamp `"2025-07-29T11:36:10.219Z"` it yields
`"7/29/2025"` (en-US model of the platform call), not the ISO string. -/
theorem c9_counterexample :
    formatValue localeDateModel localeNumModel
        (JsValue.str "2025-07-29T11:36:10.219Z") "datetime" ≠
      JsValue.str (jsToString (JsValue.str "2025-07-29T11:36:10.219Z")) := by
  decide

/-- **C9** (amended) — For every value `v` and declared type `t`, and any
platform locale renderers, the fixture/fetch `formatValue(v, t)` returns:
the empty string when `v` is null or undefined; `"Yes"`/`"No"` (by
truthiness) for type boolean; a locale-formatted number for type number
when `v`'s runtime type is numeric and `v` unchanged otherwise; for type
options the comma-space-joined elements when `v` is an array and `v`
unchanged otherwise; a locale date rendering for type datetime; and the
stringification of `v` for any other type.  The provider variant
(`part_001`) has no options case: any non-null value of declared type
options falls to the default branch and is stringified (an array joins
with `","`, a non-array is stringified rather than passed through). -/
theorem c9_format_value (locDate : JsValue → String) (locNum : Int → String)
    (v : JsValue) (t : String) (l : List String) :
    formatValue locDate locNum v t = formatSpecC9 locDate locNum v t ∧
    (¬ (v = .null ∨ v = .undefined) →
      formatValue1 locDate locNum v "options" = .str (jsToString v)) ∧
    formatValue1 locDate locNum (.arr l) "options" =
      .str (String.intercalate "," l) := by
  have hopt : ∀ w : JsValue, ¬ (w = .null ∨ w = .undefined) →
      formatValue1 locDate locNum w "options" = .str (jsToString w) := by
    intro w hw
    unfold formatValue1
    rw [if_neg hw, if_neg (by decide : ¬ ("options" = "datetime")),
      if_neg (by decide : ¬ ("options" = "number")),
      if_neg (by decide : ¬ ("options" = "boolean"))]
  refine ⟨?_, hopt v, hopt (.arr l) (by rintro (h | h) <;> cases h)⟩
  unfold formatValue formatSpecC9
  by_cases h0 : v = .null ∨ v = .undefined
  · rw [if_pos h0, if_pos h0]
  · rw [if_neg h0, if_neg h0]
    by_cases h1 : t = "datetime"
    · subst h1
      rw [if_pos rfl, if_neg (by decide : ¬ ("datetime" = "boolean")),
        if_neg (by decide : ¬ ("datetime" = "number")),
        if_neg (by decide : ¬ ("datetime" = "options")), if_pos rfl]
    · rw [if_neg h1]
      by_cases h2 : t = "number"
      · subst h2
        rw [if_pos rfl, if_neg (by decide : ¬ ("number" = "boolean")), if_pos rfl]
      · rw [if_neg h2]
        by_cases h3 : t = "boolean"
        · subst h3
          rw [if_pos rfl, if_pos rfl]
        · rw [if_neg h3]
          by_cases h4 : t = "options"
          · subst h4
            rw [if_pos rfl, if_neg (by decide : ¬ ("options" = "boolean")),
              if_neg (by decide : ¬ ("options" = "number")), if_pos rfl]
          · rw [if_neg h4, if_neg h3, if_neg h2, if_neg h4, if_neg h1]

/-- Witness for C9: a numeric value of declared type number in the
fixture/fetch variant, and a non-array value of declared type options in
the provider variant (stringified, not passed through). -/
theorem c9_format_value_witness :
    formatValue localeDateModel localeNumModel (JsValue.num 1234567) "number" =
        formatSpecC9 localeDateModel localeNumModel (JsValue.num 1234567)
          "number" ∧
      formatValue1 localeDateModel localeNumModel (JsValue.num 7) "options" =
        JsValue.str (jsToString (JsValue.num 7)) :=
  ⟨(c9_format_value localeDateModel localeNumModel (JsValue.num 1234567)
      "number" []).1,
    (c9_format_value localeDateModel localeNumModel (JsValue.num 7) "options"
      []).2.1 (by decide)⟩

/-- **C10** — When sorting is enabled, `handleSort k` sets the sort config's
key to `k` and its direction to descending exactly when the previous config
was `{ key: k, direction: asc }`, and to ascending in every other case; when
the sortable capability is disabled, the sort config is unchanged. -/
theorem c10_handle_sort (cfg : SortConfig) (k : String) :
    handleSort false cfg k = cfg ∧
    (handleSort true cfg k).key = some k ∧
    ((handleSort true cfg k).direction = .desc ↔
      cfg.key = some k ∧ cfg.direction = .asc) ∧
    ((handleSort true cfg k).direction = .asc ↔
      ¬ (cfg.key = some k ∧ cfg.direction = .asc)) := by
  refine ⟨rfl, rfl, ?_, ?_⟩ <;>
    · by_cases h : cfg.key = some k ∧ cfg.direction = .asc <;>
        simp [handleSort, h]

/-- Witness for C10: toggling an ascending sort on the same key. -/
theorem c10_handle_sort_witness :
    (handleSort true ⟨some "a", .asc⟩ "a").direction = .desc :=
  (c10_handle_sort ⟨some "a", .asc⟩ "a").2.2.1.mpr ⟨rfl, rfl⟩

/-- Witness for C5 at a concrete three-row list with a duplicated key. -/
theorem c5_sort_stable_witness :
    List.Perm
      (sortedData ⟨some "k", .asc⟩
        [[("k", JsValue.str "b")], [("k", JsValue.str "a")],
          [("k", JsValue.str "a"), ("i", JsValue.num 1)]])
      [[("k", JsValue.str "b")], [("k", JsValue.str "a")],
        [("k", JsValue.str "a"), ("i", JsValue.num 1)]] :=
  (c5_sort_stable
    [[("k", JsValue.str "b")], [("k", JsValue.str "a")],
      [("k", JsValue.str "a"), ("i", JsValue.num 1)]]
    "k" (by decide) (Or.inl (by decide))).1

end DataTable
